import Mathlib

/-!
# Verification of the `capable` capability-aggregation engine

Shallow embedding of the core of the RootAsRole `capable` tool:
the kernel probe (`capable-ebpf/src/main.rs`), the userspace request
drain and aggregator, the namespace-tree union, the policy formatting
and the CLI argument handling (`capable/src/main.rs`).

Machine integers are modelled as `Nat` / `Int` with explicit `% 2^w`
at the places where the source performs a cast.  Fallible code is
modelled with `Option` / `Except`; a Rust panic (`assert!`, `expect`)
is modelled as `Except.error`.
-/

set_option maxRecDepth 10000

namespace Capable

/-! ## Characters used by the quote-stripping code (`main.rs:466-481`) -/

/-- The ASCII double-quote character. -/
def dquote : Char := Char.ofNat 34

/-- The ASCII single-quote character. -/
def squote : Char := Char.ofNat 39

/-- The ASCII backslash character. -/
def backslash : Char := Char.ofNat 92

/-! ## Capabilities

`capctl::Cap` is a Rust enum whose numeric values are the Linux kernel
capability indices and whose `Debug` name is the upper-case capability
name.  We model it as an index/name pair. -/

/-- Model of `capctl::Cap`: the kernel capability index together with the
name produced by the `Debug` formatting used in `format!("CAP_{:?}", c)`. -/
structure Cap where
  index : Nat
  name : String
deriving DecidableEq, Repr

/-- `Cap::SETUID as u8` (`capable/src/main.rs:397`). -/
def Cap.SETUID : Nat := 7

/-- `Cap::DAC_OVERRIDE as u8` (`capable/src/main.rs:399`). -/
def Cap.DAC_OVERRIDE : Nat := 1

/-- `Cap::DAC_READ_SEARCH as u8` (`capable/src/main.rs:400`). -/
def Cap.DAC_READ_SEARCH : Nat := 2

/-- `Cap.SYS_PTRACE as u8` (`capable/src/main.rs:402`). -/
def Cap.SYS_PTRACE : Nat := 19

/-- `get_cap` (`capable/src/main.rs:167-212`): the fixed 41-entry table
mapping a capability index to the `capctl` capability, `None` above 40. -/
def get_cap (val : Nat) : Option Cap :=
  match val with
  | 0 => some ⟨0, "CHOWN"⟩
  | 1 => some ⟨1, "DAC_OVERRIDE"⟩
  | 2 => some ⟨2, "DAC_READ_SEARCH"⟩
  | 3 => some ⟨3, "FOWNER"⟩
  | 4 => some ⟨4, "FSETID"⟩
  | 5 => some ⟨5, "KILL"⟩
  | 6 => some ⟨6, "SETGID"⟩
  | 7 => some ⟨7, "SETUID"⟩
  | 8 => some ⟨8, "SETPCAP"⟩
  | 9 => some ⟨9, "LINUX_IMMUTABLE"⟩
  | 10 => some ⟨10, "NET_BIND_SERVICE"⟩
  | 11 => some ⟨11, "NET_BROADCAST"⟩
  | 12 => some ⟨12, "NET_ADMIN"⟩
  | 13 => some ⟨13, "NET_RAW"⟩
  | 14 => some ⟨14, "IPC_LOCK"⟩
  | 15 => some ⟨15, "IPC_OWNER"⟩
  | 16 => some ⟨16, "SYS_MODULE"⟩
  | 17 => some ⟨17, "SYS_RAWIO"⟩
  | 18 => some ⟨18, "SYS_CHROOT"⟩
  | 19 => some ⟨19, "SYS_PTRACE"⟩
  | 20 => some ⟨20, "SYS_PACCT"⟩
  | 21 => some ⟨21, "SYS_ADMIN"⟩
  | 22 => some ⟨22, "SYS_BOOT"⟩
  | 23 => some ⟨23, "SYS_NICE"⟩
  | 24 => some ⟨24, "SYS_RESOURCE"⟩
  | 25 => some ⟨25, "SYS_TIME"⟩
  | 26 => some ⟨26, "SYS_TTY_CONFIG"⟩
  | 27 => some ⟨27, "MKNOD"⟩
  | 28 => some ⟨28, "LEASE"⟩
  | 29 => some ⟨29, "AUDIT_WRITE"⟩
  | 30 => some ⟨30, "AUDIT_CONTROL"⟩
  | 31 => some ⟨31, "SETFCAP"⟩
  | 32 => some ⟨32, "MAC_OVERRIDE"⟩
  | 33 => some ⟨33, "MAC_ADMIN"⟩
  | 34 => some ⟨34, "SYSLOG"⟩
  | 35 => some ⟨35, "WAKE_ALARM"⟩
  | 36 => some ⟨36, "BLOCK_SUSPEND"⟩
  | 37 => some ⟨37, "AUDIT_READ"⟩
  | 38 => some ⟨38, "PERFMON"⟩
  | 39 => some ⟨39, "BPF"⟩
  | 40 => some ⟨40, "CHECKPOINT_RESTORE"⟩
  | _ => none

/-! ## CapSet

`capctl::CapSet` is a 64-bit mask over the 41 capability indices; we model
it as a `Nat` bitmask.  `CapSet::add` sets the bit of the capability's
index; `!CapSet::empty()` is the mask of all 41 valid capability bits. -/

/-- The mask `!CapSet::empty()`: all 41 capability bits 0..40 set. -/
def fullCapSet : Nat := 2 ^ 41 - 1

/-- `capset_to_vec` (`capable/src/main.rs:150-152`): one
`format!("CAP_{:?}", c)` string per capability present in the set, in
ascending index order (the order of `CapSet::iter`). -/
def capset_to_vec (set : Nat) : List String :=
  ((List.range 41).filter (fun i => set.testBit i)).map
    (fun i => "CAP_" ++ ((get_cap i).map Cap.name).getD "")

/-- `capset_to_string` (`capable/src/main.rs:154-165`): collapses the full
set to `"ALL"`, otherwise space-joins the `CAP_` names.  Used only for the
textual table output, not for the JSON policy. -/
def capset_to_string (set : Nat) : String :=
  if set = fullCapSet then "ALL"
  else
    (String.join (((List.range 41).filter (fun i => set.testBit i)).map
      (fun i => "CAP_" ++ ((get_cap i).map Cap.name).getD "" ++ " "))).trimRight

/-- The `capabilities` field of `ProgramResult` as built at
`capable/src/main.rs:931-936`: `capset_to_vec(&capset)`. -/
def programResultCapabilities (capset : Nat) : List String :=
  capset_to_vec capset

/-! ## Kernel probe (`capable-ebpf/src/main.rs`)

`try_capable` (lines 34-60) reads the current task and writes into four
per-pid eBPF `HashMap`s.  The data obtained from the kernel-safe reads
(`bpf_probe_read_kernel`, `bpf_get_current_uid_gid`, the probe's
capability argument) is modelled as an already-read `TaskInfo` record;
the successful-read path is the one the claims are about. -/

/-- The kernel-side data read by one probe invocation. -/
structure TaskInfo where
  pid : Int
  ppid : Int
  uid_gid : Nat
  ns_inode : Nat
  parent_ns_inode : Nat
  capability : Nat
deriving DecidableEq, Repr

/-- The four maps declared with `#[map]` in `capable-ebpf/src/main.rs:25-32`,
each keyed by pid (`Key = i32`). -/
structure EbpfMaps where
  capabilities_map : Int → Option Nat
  uid_gid_map : Int → Option Nat
  ppid_map : Int → Option Int
  pnsid_nsid_map : Int → Option Nat

/-- The empty initial state of the four probe maps. -/
def EbpfMaps.empty : EbpfMaps :=
  ⟨fun _ => none, fun _ => none, fun _ => none, fun _ => none⟩

/-- `(1 << ctx.arg::<u8>(2).unwrap()) as u64` (`capable-ebpf/src/main.rs:40`):
`1` is an `i32`, so the shift count is masked to 5 bits and the 32-bit
result is sign-extended by the `as u64` cast. -/
def capBitU64 (c : Nat) : Nat :=
  let w := (2 ^ (c % 32)) % 2 ^ 32
  if w < 2 ^ 31 then w else 2 ^ 64 - 2 ^ 32 + w

/-- `try_capable` (`capable-ebpf/src/main.rs:34-60`), successful-read path:
computes `pinum_inum = (parent_ns_inode << 32) | ns_inode`, reads the
previously accumulated capability mask for the pid (`unwrap_or(&zero)`),
and inserts into the four per-pid hash maps, OR-ing the new capability bit
into `CAPABILITIES_MAP`.  It touches no other map: in particular it pushes
nothing onto any queue and captures no stack-trace id. -/
def try_capable (t : TaskInfo) (m : EbpfMaps) : EbpfMaps :=
  let cap : Nat := capBitU64 t.capability
  let capval : Nat := (m.capabilities_map t.pid).getD 0
  let pinum_inum : Nat := ((t.parent_ns_inode % 2 ^ 32) <<< 32) ||| (t.ns_inode % 2 ^ 32)
  { uid_gid_map := fun p => if p = t.pid then some t.uid_gid else m.uid_gid_map p
    pnsid_nsid_map := fun p => if p = t.pid then some pinum_inum else m.pnsid_nsid_map p
    ppid_map := fun p => if p = t.pid then some t.ppid else m.ppid_map p
    capabilities_map := fun p => if p = t.pid then some (capval ||| cap) else m.capabilities_map p }

/-- The names of the maps the eBPF program defines
(`#[map]` statics, `capable-ebpf/src/main.rs:25-32`). -/
def ebpfDefinedMaps : List String :=
  ["CAPABILITIES_MAP", "UID_GID_MAP", "PPID_MAP", "PNSID_NSID_MAP"]

/-- The names of the maps the userspace consumer requires from the loaded
eBPF object (`capable/src/main.rs:831-833`): the bounded Request queue
`ENTRY_STACK` and the stack-trace table `STACKTRACE_MAP`. -/
def userspaceRequiredMaps : List String :=
  ["ENTRY_STACK", "STACKTRACE_MAP"]

/-! ## Request drain & aggregator (`capable/src/main.rs:370-433`) -/

/-- `Request` (`capable-common/src/lib.rs:17-26`): the record the userspace
drain pops from the `ENTRY_STACK` queue. -/
structure Request where
  pid : Int
  ppid : Int
  uid_gid : Nat
  pnsid_nsid : Nat
  capability : Nat
  stackid : Int
deriving DecidableEq, Repr

/-- `extract_ns` (`capable/src/main.rs:308-312`):
`ns = low 32 bits`, `parent_ns = high 32 bits`. -/
def extract_ns (pinum_inum : Nat) : Nat × Nat :=
  (pinum_inum % 2 ^ 32, (pinum_inum / 2 ^ 32) % 2 ^ 32)

/-- The `stackid as u32` cast at `capable/src/main.rs:396`. -/
def asU32 (i : Int) : Nat := (i % 2 ^ 32).toNat

/-- The six fields fed to the hasher by `impl Hash for CapSetEntry`
(`capable/src/main.rs:112-121`), in order: pid, ppid, uid, gid,
parent_ns, ns.  This is the key under which the `HashSet` stores an
entry (assuming a collision-free hasher). -/
abbrev HashKey := Int × Int × Nat × Nat × Nat × Nat

/-- The `HashKey` of the `CapSetEntry` built from a popped `Request`
(`capable/src/main.rs:390-393`): `uid = uid_gid as u32`,
`gid = (uid_gid >> 32) as u32`, `(ns, parent_ns) = extract_ns pnsid_nsid`. -/
def requestKey (r : Request) : HashKey :=
  let ns := (extract_ns r.pnsid_nsid).1
  let parent_ns := (extract_ns r.pnsid_nsid).2
  (r.pid, r.ppid, r.uid_gid % 2 ^ 32, (r.uid_gid / 2 ^ 32) % 2 ^ 32, parent_ns, ns)

/-- The aggregation state: for each `HashKey`, the accumulated `CapSet`
bitmask of the `CapSetEntry` stored under that key (`none` = no entry). -/
abbrev AggMap := HashKey → Option Nat

/-- Point update of an `AggMap` (the `take`-modify-`insert` cycle of
`capable/src/main.rs:394-415` under a collision-free hasher). -/
def AggMap.upd (m : AggMap) (k : HashKey) (v : Nat) : AggMap :=
  fun k' => if k' = k then some v else m k'

/-- `skip_priv_sym` (`capable/src/main.rs:420-433`): whether some frame of
the stack trace resolves to `symbol`.  The nearest-not-greater kernel
symbol lookup `ksyms.range(..=frame.ip).next_back()` is modelled by the
resolution function `ksyms : ip → Option name`. -/
def skip_priv_sym (stack : List Nat) (ksyms : Nat → Option String) (symbol : String) : Bool :=
  stack.any (fun ip => ksyms ip == some symbol)

/-- The stack-filter condition of `capable/src/main.rs:397-402`: the
negated condition guarding `entry.add`.  A `Request` is suppressed when
it is a `SETUID` check from `cap_bprm_creds_from_file`, any
`DAC_OVERRIDE` check, a `DAC_READ_SEARCH` check from `may_open`, or any
`SYS_PTRACE` check. -/
def suppress_request (stack : List Nat) (ksyms : Nat → Option String) (capability : Nat) : Bool :=
  (capability == Cap.SETUID && skip_priv_sym stack ksyms "cap_bprm_creds_from_file")
  || capability == Cap.DAC_OVERRIDE
  || (capability == Cap.DAC_READ_SEARCH && skip_priv_sym stack ksyms "may_open")
  || capability == Cap.SYS_PTRACE

/-- One iteration of the `aggregate_cap_set_entries` drain loop
(`capable/src/main.rs:380-416`) on a popped `Request`:
the `assert!(stackid <= i32::MAX as i64)` panic, the `CapSetEntry`
take-or-create, the `stacktrace_map.get(..)?` error propagation, the
stack-filter, the `get_cap(..).expect(..)` panic, and the re-insert. -/
def aggregateStep (stm : Nat → Option (List Nat)) (ksyms : Nat → Option String)
    (m : AggMap) (r : Request) : Except String AggMap :=
  if r.stackid ≤ 2 ^ 31 - 1 then
    let key := requestKey r
    let caps : Nat := (m key).getD 0
    match stm (asU32 r.stackid) with
    | none => Except.error "MapError: key not found in STACKTRACE_MAP"
    | some stack =>
      if suppress_request stack ksyms r.capability then
        Except.ok (m.upd key caps)
      else
        match get_cap r.capability with
        | none => Except.error ("Unknown capability: " ++ toString r.capability)
        | some c => Except.ok (m.upd key (caps ||| 2 ^ c.index))
  else
    Except.error "assertion failed: stackid <= i32::MAX as i64"

/-- `aggregate_cap_set_entries` (`capable/src/main.rs:370-418`): drains the
popped `Request`s in order, starting from the entry set `m`
(`HashSet::new()` at the call sites). -/
def aggregate_cap_set_entries (stm : Nat → Option (List Nat)) (ksyms : Nat → Option String) :
    List Request → AggMap → Except String AggMap
  | [], m => Except.ok m
  | r :: rs, m =>
    match aggregateStep stm ksyms m r with
    | Except.error e => Except.error e
    | Except.ok m' => aggregate_cap_set_entries stm ksyms rs m'

/-! ## `CapSetEntry` identity (`capable/src/main.rs:78-133`) -/

/-- `CapSetEntry` (`capable/src/main.rs:78-86`). -/
structure CapSetEntry where
  pid : Int
  ppid : Int
  uid : Nat
  gid : Nat
  ns : Nat
  parent_ns : Nat
  capabilities : Nat
deriving DecidableEq, Repr

/-- The data written to the hasher by `impl Hash for CapSetEntry`
(`capable/src/main.rs:112-121`): pid, ppid, uid, gid, parent_ns, ns —
six fields, `gid` included. -/
def CapSetEntry.hashData (e : CapSetEntry) : List Int :=
  [e.pid, e.ppid, Int.ofNat e.uid, Int.ofNat e.gid, Int.ofNat e.parent_ns, Int.ofNat e.ns]

/-- `impl PartialEq for CapSetEntry` (`capable/src/main.rs:123-131`):
compares pid, ppid, uid, parent_ns and ns — five fields, `gid` ignored. -/
def CapSetEntry.beq (a b : CapSetEntry) : Bool :=
  a.pid == b.pid && a.ppid == b.ppid && a.uid == b.uid
    && a.parent_ns == b.parent_ns && a.ns == b.ns

/-! ## Namespace-tree union (`capable/src/main.rs:214-227`)

`union_all_childs` recurses through the namespace graph
(`HashMap<u32, Vec<u32>>`, modelled as `Nat → Option (List Nat)`) and
ORs together capability sets from `cap_graph`
(`HashMap<u32, CapSet>`, modelled as `Nat → Option Nat`).  The Rust
recursion has no termination guarantee for graphs with non-trivial
cycles, so the model takes an explicit fuel argument; `none` means the
fuel ran out (the Rust code would still be recursing). -/

/-- The loop body of `union_all_childs` (`capable/src/main.rs:220-225`):
folds over the child list, OR-ing each child's capability set
(`unwrap_or empty`) and, when the child is itself a graph key and
differs from the current node, the recursive union of the child.
`rec` is the recursive call at the remaining fuel. -/
def union_all_childs_go (graph : Nat → Option (List Nat)) (cap_graph : Nat → Option Nat)
    (rec : Nat → Option Nat) (nsinode : Nat) : List Nat → Nat → Option Nat
  | [], acc => some acc
  | ns :: rest, acc =>
    let acc2 := acc ||| (cap_graph ns).getD 0
    if (graph ns).isSome ∧ ns ≠ nsinode then
      match rec ns with
      | none => none
      | some sub => union_all_childs_go graph cap_graph rec nsinode rest (acc2 ||| sub)
    else
      union_all_childs_go graph cap_graph rec nsinode rest acc2

/-- `union_all_childs` (`capable/src/main.rs:214-227`) with fuel. -/
def union_all_childs (graph : Nat → Option (List Nat)) (cap_graph : Nat → Option Nat) :
    Nat → Nat → Option Nat
  | 0, _ => none
  | fuel + 1, nsinode =>
    union_all_childs_go graph cap_graph (union_all_childs graph cap_graph fuel) nsinode
      ((graph nsinode).getD []) 0

/-- Modelled from the spec: the closure equation of spec §4.2,
`union(root_ns) = caps[root_ns] ∪ ⋃ union(child) for child in
graph[root_ns] where child ≠ root_ns` — in particular it includes
`caps[root_ns]` itself.  Written with the same fuel discipline as
`union_all_childs` for comparison. -/
def union_spec_go (graph : Nat → Option (List Nat)) (cap_graph : Nat → Option Nat)
    (rec : Nat → Option Nat) (nsinode : Nat) : List Nat → Nat → Option Nat
  | [], acc => some acc
  | ns :: rest, acc =>
    if ns ≠ nsinode then
      match rec ns with
      | none => none
      | some sub => union_spec_go graph cap_graph rec nsinode rest (acc ||| sub)
    else
      union_spec_go graph cap_graph rec nsinode rest acc

/-- Modelled from the spec: `union(root_ns)` per the spec §4.2 equation. -/
def union_spec (graph : Nat → Option (List Nat)) (cap_graph : Nat → Option Nat) :
    Nat → Nat → Option Nat
  | 0, _ => none
  | fuel + 1, nsinode =>
    union_spec_go graph cap_graph (union_spec graph cap_graph fuel) nsinode
      ((graph nsinode).getD []) ((cap_graph nsinode).getD 0)

/-- The edge relation actually followed by the recursion of
`union_all_childs`: from `a` to a child `b` listed under `a` that is a
graph key and differs from `a` (the `graph.contains_key(&ns) && *ns !=
nsinode` guard at `capable/src/main.rs:222`). -/
def StrictEdge (graph : Nat → Option (List Nat)) (a b : Nat) : Prop :=
  b ∈ (graph a).getD [] ∧ (graph b).isSome = true ∧ b ≠ a

/-- Membership of `n` in the union computed from `root`: either `n` is a
child listed under `root`, or `n` lies in the union of a child the
recursion descends into. -/
inductive InUnion (graph : Nat → Option (List Nat)) : Nat → Nat → Prop
  | child {root n : Nat} : n ∈ (graph root).getD [] → InUnion graph root n
  | step {root c n : Nat} : c ∈ (graph root).getD [] → (graph c).isSome = true →
      c ≠ root → InUnion graph c n → InUnion graph root n

/-! ## CLI argument handling (`capable/src/main.rs:466-481, 551-602`) -/

/-- `remove_outer_quotes` (`capable/src/main.rs:466-474`): recursively
strips a matching outermost pair of double quotes or single quotes while
the string has length at least 2.  Strings are modelled as `List Char`. -/
def remove_outer_quotes (input : List Char) : List Char :=
  if 2 ≤ input.length ∧ input.head? = some dquote ∧ input.getLast? = some dquote then
    remove_outer_quotes ((input.drop 1).dropLast)
  else if 2 ≤ input.length ∧ input.head? = some squote ∧ input.getLast? = some squote then
    remove_outer_quotes ((input.drop 1).dropLast)
  else
    input
termination_by input.length
decreasing_by
  all_goals simp_all [List.length_dropLast, List.length_drop]
  all_goals omega

/-- The character-wise effect of `.replace("\x22", "\x5c\x22")`
(`capable/src/main.rs:480`): each double quote becomes backslash plus
double quote. -/
def escapeDquotes (s : List Char) : List Char :=
  s.flatMap (fun c => if c = dquote then [backslash, dquote] else [c])

/-- `escape_parser_string` (`capable/src/main.rs:476-481`). -/
def escape_parser_string (s : List Char) : List Char :=
  escapeDquotes (remove_outer_quotes s)

/-- `escape_parser_string` at the `String` level, as called by `getopt`. -/
def escapeArg (s : String) : String :=
  String.mk (escape_parser_string s.data)

/-- The `Cli` structure (`capable/src/main.rs:49-75`); capabilities as a
bitmask, paths as strings. -/
structure Cli where
  sleep : Option Nat
  daemon : Bool
  capabilities : Nat
  output : Option String
  command : List String
deriving DecidableEq, Repr

/-- `Cli::default` (`capable/src/main.rs:65-75`). -/
def Cli.default : Cli :=
  { sleep := none, daemon := false, capabilities := 0, output := none, command := [] }

/-- The option-parsing loop of `getopt` (`capable/src/main.rs:556-601`).
The `-c` value computation (capctl name parsing and the `ALL` bounding-set
probe, both external to the repository) is abstracted as `parseCapsArg`;
`-l` only sets the `RUST_LOG` environment variable, which has no `Cli`
field.  On the first argument that is not a known option: if it starts
with `-` (ASCII 45) the parse fails, otherwise that argument and every remaining one
are pushed through `escape_parser_string` onto `command` (the `break` plus
the trailing `while` loop at lines 588-601). -/
def getopt_go (parseCapsArg : String → Nat) : Cli → List String → Except String Cli
  | args, [] => Except.ok args
  | args, a :: rest =>
    if a = "-s" ∨ a = "--sleep" then
      match rest with
      | [] => Except.ok { args with sleep := none }
      | n :: rest2 => getopt_go parseCapsArg { args with sleep := n.toNat? } rest2
    else if a = "-d" ∨ a = "--daemon" then
      getopt_go parseCapsArg { args with daemon := true } rest
    else if a = "-c" ∨ a = "--capabilities" then
      match rest with
      | [] => Except.ok { args with capabilities := 0 }
      | c :: rest2 => getopt_go parseCapsArg { args with capabilities := parseCapsArg c } rest2
    else if a = "-o" ∨ a = "--output" then
      match rest with
      | [] => Except.ok { args with output := none }
      | o :: rest2 => getopt_go parseCapsArg { args with output := some o } rest2
    else if a = "-l" ∨ a = "--log-level" then
      match rest with
      | [] => Except.ok args
      | _ :: rest2 => getopt_go parseCapsArg args rest2
    else if a.data.head? = some (Char.ofNat 45) then
      Except.error ("Unknown option: " ++ a)
    else
      Except.ok { args with command := args.command ++ (a :: rest).map escapeArg }

/-- `getopt` (`capable/src/main.rs:551-602`): skips `argv[0]` and runs the
option loop from the default `Cli`. -/
def getopt (parseCapsArg : String → Nat) (argv : List String) : Except String Cli :=
  getopt_go parseCapsArg Cli.default (argv.drop 1)

/-! ## Derived notions used by the statements and proofs -/

/-- A popped `Request` that the drain loop processes without a fatal
error: its stackid passes the `assert!`, its stack-trace id has a live
entry in the stack-trace table, and its capability index is known. -/
def GoodReq (stm : Nat → Option (List Nat)) (r : Request) : Prop :=
  r.stackid ≤ 2 ^ 31 - 1 ∧ (stm (asU32 r.stackid)).isSome = true ∧ r.capability ≤ 40

instance (stm : Nat → Option (List Nat)) (r : Request) : Decidable (GoodReq stm r) := by
  unfold GoodReq
  infer_instance

/-- The capability bits one `Request` contributes to its entry: none when
the stack-filter suppresses it, otherwise the bit of its capability. -/
def addedBits (stm : Nat → Option (List Nat)) (ksyms : Nat → Option String) (r : Request) : Nat :=
  match stm (asU32 r.stackid) with
  | none => 0
  | some stack => if suppress_request stack ksyms r.capability then 0 else 2 ^ r.capability

/-- The effect of one error-free drain iteration on the entry set. -/
def stepMap (stm : Nat → Option (List Nat)) (ksyms : Nat → Option String)
    (r : Request) (m : AggMap) : AggMap :=
  m.upd (requestKey r) (((m (requestKey r)).getD 0) ||| addedBits stm ksyms r)

/-! ## Concrete instances used by witnesses and counterexamples -/

/-- A probe invocation: pid 42, parent 1, uid 1000, new namespace
4026532100 inside 4026531836, capability CHOWN (0). -/
def task1 : TaskInfo := ⟨42, 1, 1000, 4026532100, 4026531836, 0⟩

/-- A second probe invocation for pid 42, capability DAC_OVERRIDE (1). -/
def task2 : TaskInfo := ⟨42, 1, 1000, 4026532100, 4026531836, 1⟩

/-- A stack-trace table with a single live entry: id 7 maps to a
one-frame stack at instruction pointer 12345. -/
def stm0 : Nat → Option (List Nat) := fun id => if id = 7 then some [12345] else none

/-- A kernel-symbol resolution: ip 12345 resolves to `may_open`. -/
def ks0 : Nat → Option String := fun ip => if ip = 12345 then some "may_open" else none

/-- A stack-trace table with no live entries. -/
def stmEmpty : Nat → Option (List Nat) := fun _ => none

/-- A CHOWN (0) `Request` from pid 100 with stack-trace id 7. -/
def rChown : Request := ⟨100, 1, 1000, (4026531836 <<< 32) ||| 4026532100, 0, 7⟩

/-- A DAC_READ_SEARCH (2) `Request` from pid 100 with stack-trace id 7
(whose stack resolves to `may_open` under `ks0`). -/
def rDacRead : Request := ⟨100, 1, 1000, (4026531836 <<< 32) ||| 4026532100, 2, 7⟩

/-- A `Request` carrying the unknown capability index 41. -/
def rBig : Request := ⟨100, 1, 1000, (4026531836 <<< 32) ||| 4026532100, 41, 7⟩

/-- A `Request` whose stack-trace id 9 has no entry in `stm0`. -/
def rLost : Request := ⟨100, 1, 1000, (4026531836 <<< 32) ||| 4026532100, 0, 9⟩

/-- The empty namespace graph. -/
def gEmpty : Nat → Option (List Nat) := fun _ => none

/-- A capability map giving namespace 1 (the root) the CHOWN bit. -/
def cgRoot : Nat → Option Nat := fun n => if n = 1 then some 1 else none

/-- A namespace graph with one key: namespace 1 lists children 1 and 2. -/
def g1 : Nat → Option (List Nat) := fun n => if n = 1 then some [1, 2] else none

/-- Capability sets for `g1`: namespace 1 has bits 0 and 2, namespace 2
has bit 1. -/
def cg1 : Nat → Option Nat := fun n => if n = 1 then some 5 else if n = 2 then some 2 else none

/-- A namespace graph that is a pure self-loop: namespace 1 lists only
itself. -/
def gSelf : Nat → Option (List Nat) := fun n => if n = 1 then some [1] else none

/-- A capability map for `gSelf`. -/
def cgSelf : Nat → Option Nat := fun n => if n = 1 then some 3 else none

/-- A `CapSetEntry` with gid 0. -/
def entryGid0 : CapSetEntry := ⟨1234, 1, 1000, 0, 4026532100, 4026531836, 0⟩

/-- The same `CapSetEntry` except gid 1. -/
def entryGid1 : CapSetEntry := ⟨1234, 1, 1000, 1, 4026532100, 4026531836, 0⟩

/-- A trivial capability-argument parser for `getopt` instances. -/
def pc0 : String → Nat := fun _ => 0

/-- A concrete argv: program name, `-d`, then the command `echo`. -/
def argv0 : List String := ["capable", "-d", "echo"]

/-- The `Cli` that `getopt` produces on `argv0`. -/
def cli0 : Cli :=
  { sleep := none, daemon := true, capabilities := 0, output := none, command := ["echo"] }

/-- A double-quoted one-character argument. -/
def sQ : List Char := [dquote, Char.ofNat 97, dquote]

/-- A popped `Request` on which the drain-loop iteration returns
normally: the `assert!` passes, the stack-trace entry is live, and the
request is either suppressed by the stack filter (in which case
`get_cap` is never consulted) or carries a known capability index. -/
def OkReq (stm : Nat → Option (List Nat)) (ks : Nat → Option String) (r : Request) : Prop :=
  r.stackid ≤ 2 ^ 31 - 1 ∧ ∃ stack, stm (asU32 r.stackid) = some stack ∧
    (suppress_request stack ks r.capability = true ∨ (get_cap r.capability).isSome = true)

/-! ## Lemmas about the capability table -/

theorem get_cap_of_le {v : Nat} (h : v ≤ 40) : ∃ c, get_cap v = some c ∧ c.index = v := by
  interval_cases v <;> exact ⟨_, rfl, rfl⟩

theorem get_cap_of_gt {v : Nat} (h : 40 < v) : get_cap v = none := by
  obtain ⟨k, rfl⟩ : ∃ k, v = k + 41 := ⟨v - 41, by omega⟩
  rfl

theorem suppress_request_gt_40 {stack : List Nat} {ks : Nat → Option String} {c : Nat}
    (h : 40 < c) : suppress_request stack ks c = false := by
  have h7 : (c == Cap.SETUID) = false := by simp [Cap.SETUID]; omega
  have h1 : (c == Cap.DAC_OVERRIDE) = false := by simp [Cap.DAC_OVERRIDE]; omega
  have h2 : (c == Cap.DAC_READ_SEARCH) = false := by simp [Cap.DAC_READ_SEARCH]; omega
  have h19 : (c == Cap.SYS_PTRACE) = false := by simp [Cap.SYS_PTRACE]; omega
  simp [suppress_request, h7, h1, h2, h19]

theorem suppress_request_iff {stack : List Nat} {ks : Nat → Option String} {c : Nat} :
    suppress_request stack ks c = true ↔
      ((c = Cap.SETUID ∧ skip_priv_sym stack ks "cap_bprm_creds_from_file" = true)
        ∨ c = Cap.DAC_OVERRIDE
        ∨ (c = Cap.DAC_READ_SEARCH ∧ skip_priv_sym stack ks "may_open" = true)
        ∨ c = Cap.SYS_PTRACE) := by
  simp only [suppress_request, Bool.or_eq_true, Bool.and_eq_true, beq_iff_eq]
  tauto

/-! ## Lemmas about the drain loop -/

theorem AggMap.upd_lookup (m : AggMap) (k : HashKey) (v : Nat) : m.upd k v k = some v := by
  simp [AggMap.upd]

theorem AggMap.upd_of_lookup {m : AggMap} {k : HashKey} {v : Nat} (h : m k = some v) :
    m.upd k v = m := by
  funext k'
  by_cases hk : k' = k
  · subst hk
    simp [AggMap.upd, h]
  · simp [AggMap.upd, hk]

theorem get_cap_index {v : Nat} {c : Cap} (h : get_cap v = some c) : c.index = v := by
  rcases le_or_lt v 40 with hv | hv
  · obtain ⟨c', hc', hidx⟩ := get_cap_of_le hv
    rw [hc'] at h
    cases h
    exact hidx
  · rw [get_cap_of_gt hv] at h
    cases h

theorem aggregateStep_eq_ok {stm : Nat → Option (List Nat)} {ks : Nat → Option String}
    {r : Request} (m : AggMap) (h : OkReq stm ks r) :
    aggregateStep stm ks m r = Except.ok (stepMap stm ks r m) := by
  obtain ⟨h1, stack, hst, hOk⟩ := h
  rw [aggregateStep, if_pos h1, hst]
  by_cases hsup : suppress_request stack ks r.capability
  · simp only [hsup, if_true, stepMap, addedBits, hst, if_pos hsup, Nat.or_zero]
  · have hglc : (get_cap r.capability).isSome = true := by
      rcases hOk with hs | hg
      · exact absurd hs hsup
      · exact hg
    obtain ⟨c, hc⟩ := Option.isSome_iff_exists.mp hglc
    have hidx := get_cap_index hc
    simp only [hsup, hc, stepMap, addedBits, hst, if_neg hsup, hidx, Bool.false_eq_true,
      if_false]

theorem OkReq_of_good {stm : Nat → Option (List Nat)} (ks : Nat → Option String)
    {r : Request} (h : GoodReq stm r) : OkReq stm ks r := by
  obtain ⟨h1, h2, h3⟩ := h
  obtain ⟨stack, hst⟩ := Option.isSome_iff_exists.mp h2
  obtain ⟨c, hc, _⟩ := get_cap_of_le h3
  exact ⟨h1, stack, hst, Or.inr (by rw [hc]; rfl)⟩

theorem aggregateStep_ok {stm : Nat → Option (List Nat)} {ks : Nat → Option String}
    {r : Request} (m : AggMap) (h : GoodReq stm r) :
    aggregateStep stm ks m r = Except.ok (stepMap stm ks r m) :=
  aggregateStep_eq_ok m (OkReq_of_good ks h)

theorem aggregateStep_ok_inv {stm : Nat → Option (List Nat)} {ks : Nat → Option String}
    {r : Request} {m m' : AggMap} (h : aggregateStep stm ks m r = Except.ok m') :
    OkReq stm ks r ∧ m' = stepMap stm ks r m := by
  rw [aggregateStep] at h
  by_cases h1 : r.stackid ≤ 2 ^ 31 - 1
  · rw [if_pos h1] at h
    rcases hst : stm (asU32 r.stackid) with _ | stack
    · rw [hst] at h
      simp at h
    · rw [hst] at h
      dsimp only at h
      by_cases hsup : suppress_request stack ks r.capability
      · rw [if_pos hsup] at h
        have hmap := Except.ok.inj h
        refine ⟨⟨h1, stack, hst, Or.inl hsup⟩, ?_⟩
        rw [← hmap, stepMap, addedBits, hst]
        dsimp only
        rw [if_pos hsup, Nat.or_zero]
      · rw [if_neg hsup] at h
        rcases hc : get_cap r.capability with _ | c
        · simp [hc] at h
        · rw [hc] at h
          have hmap := Except.ok.inj h
          refine ⟨⟨h1, stack, hst, Or.inr (by rw [hc]; rfl)⟩, ?_⟩
          rw [← hmap, stepMap, addedBits, hst]
          dsimp only
          rw [if_neg hsup, get_cap_index hc]
  · rw [if_neg h1] at h
    simp at h

theorem stepMap_idem (stm : Nat → Option (List Nat)) (ks : Nat → Option String)
    (r : Request) (m : AggMap) :
    stepMap stm ks r (stepMap stm ks r m) = stepMap stm ks r m := by
  funext k
  simp only [stepMap, AggMap.upd]
  by_cases hk : k = requestKey r
  · simp only [hk, if_true, eq_self_iff_true, Option.getD_some]
    rw [Nat.lor_assoc, Nat.or_self]
  · simp [hk]

theorem aggregateStep_idem {stm : Nat → Option (List Nat)} {ks : Nat → Option String}
    {r : Request} {m m' : AggMap} (h : aggregateStep stm ks m r = Except.ok m') :
    aggregateStep stm ks m' r = Except.ok m' := by
  obtain ⟨hok, rfl⟩ := aggregateStep_ok_inv h
  rw [aggregateStep_eq_ok _ hok, stepMap_idem]

theorem stepMap_comm (stm : Nat → Option (List Nat)) (ks : Nat → Option String)
    (x y : Request) (m : AggMap) :
    stepMap stm ks y (stepMap stm ks x m) = stepMap stm ks x (stepMap stm ks y m) := by
  funext k
  simp only [stepMap, AggMap.upd]
  by_cases hxy : requestKey x = requestKey y
  · rw [hxy]
    by_cases hk : k = requestKey y
    · simp only [hk, if_true, eq_self_iff_true, Option.getD_some]
      rw [Nat.lor_assoc, Nat.lor_assoc, Nat.lor_comm (addedBits stm ks x)]
    · simp [hk]
  · by_cases hk1 : k = requestKey x <;> by_cases hk2 : k = requestKey y
    · exact absurd (hk1 ▸ hk2) hxy
    · simp [hk1, hk2, hxy]
    · simp [hk2, hxy, Ne.symm hxy]
    · simp [hk1, hk2]

theorem aggregate_ok_of_good {stm : Nat → Option (List Nat)} {ks : Nat → Option String}
    {rs : List Request} (m : AggMap) (h : ∀ r ∈ rs, GoodReq stm r) :
    aggregate_cap_set_entries stm ks rs m =
      Except.ok (rs.foldl (fun m' r => stepMap stm ks r m') m) := by
  induction rs generalizing m with
  | nil => rfl
  | cons r rs ih =>
    rw [aggregate_cap_set_entries, aggregateStep_ok m (h r (List.mem_cons_self r rs))]
    exact ih _ (fun x hx => h x (List.mem_cons_of_mem r hx))

/-! ## Lemmas about bitwise union -/

theorem lor_absorb {a b v : Nat} (h1 : a ||| b = b) (h2 : b ||| v = v) : a ||| v = v := by
  rw [← h2, ← Nat.lor_assoc, h1]

theorem lor_absorb_self {a b : Nat} : a ||| (a ||| b) = a ||| b := by
  rw [← Nat.lor_assoc, Nat.or_self]

theorem lor_mid_absorb {a b : Nat} : b ||| (a ||| b) = a ||| b := by
  rw [Nat.lor_comm a b, lor_absorb_self, Nat.lor_comm]

/-! ## Lemmas about the namespace-tree union -/

theorem union_go_acc {g : Nat → Option (List Nat)} {cg : Nat → Option Nat}
    {rec : Nat → Option Nat} {n : Nat} :
    ∀ (l : List Nat) (acc v : Nat),
      union_all_childs_go g cg rec n l acc = some v → acc ||| v = v := by
  intro l
  induction l with
  | nil =>
    intro acc v h
    rw [union_all_childs_go] at h
    cases h
    exact Nat.or_self acc
  | cons ns rest ih =>
    intro acc v h
    rw [union_all_childs_go] at h
    by_cases hg : (g ns).isSome = true ∧ ns ≠ n
    · rw [if_pos hg] at h
      rcases hr : rec ns with _ | sub
      · rw [hr] at h
        cases h
      · rw [hr] at h
        refine lor_absorb ?_ (ih _ _ h)
        rw [← Nat.lor_assoc, lor_absorb_self]
    · rw [if_neg hg] at h
      exact lor_absorb lor_absorb_self (ih _ _ h)

theorem union_go_child {g : Nat → Option (List Nat)} {cg : Nat → Option Nat}
    {rec : Nat → Option Nat} {n : Nat} :
    ∀ (l : List Nat) (acc v c : Nat), c ∈ l →
      union_all_childs_go g cg rec n l acc = some v → (cg c).getD 0 ||| v = v := by
  intro l
  induction l with
  | nil =>
    intro acc v c hc
    cases hc
  | cons ns rest ih =>
    intro acc v c hc h
    rw [union_all_childs_go] at h
    rcases List.mem_cons.mp hc with rfl | hmem
    · by_cases hg : (g c).isSome = true ∧ c ≠ n
      · rw [if_pos hg] at h
        rcases hr : rec c with _ | sub
        · rw [hr] at h
          cases h
        · rw [hr] at h
          refine lor_absorb ?_ (union_go_acc _ _ _ h)
          rw [← Nat.lor_assoc, lor_mid_absorb]
      · rw [if_neg hg] at h
        exact lor_absorb lor_mid_absorb (union_go_acc _ _ _ h)
    · by_cases hg : (g ns).isSome = true ∧ ns ≠ n
      · rw [if_pos hg] at h
        rcases hr : rec ns with _ | sub
        · rw [hr] at h
          cases h
        · rw [hr] at h
          exact ih _ _ _ hmem h
      · rw [if_neg hg] at h
        exact ih _ _ _ hmem h

theorem union_go_rec {g : Nat → Option (List Nat)} {cg : Nat → Option Nat}
    {rec : Nat → Option Nat} {n : Nat} :
    ∀ (l : List Nat) (acc v c : Nat), c ∈ l → (g c).isSome = true → c ≠ n →
      union_all_childs_go g cg rec n l acc = some v →
      ∃ sub, rec c = some sub ∧ sub ||| v = v := by
  intro l
  induction l with
  | nil =>
    intro acc v c hc
    cases hc
  | cons ns rest ih =>
    intro acc v c hc hkey hne h
    rw [union_all_childs_go] at h
    rcases List.mem_cons.mp hc with rfl | hmem
    · rw [if_pos ⟨hkey, hne⟩] at h
      rcases hr : rec c with _ | sub
      · rw [hr] at h
        cases h
      · rw [hr] at h
        exact ⟨sub, rfl, lor_absorb lor_mid_absorb (union_go_acc _ _ _ h)⟩
    · by_cases hg : (g ns).isSome = true ∧ ns ≠ n
      · rw [if_pos hg] at h
        rcases hr : rec ns with _ | sub
        · rw [hr] at h
          cases h
        · rw [hr] at h
          exact ih _ _ _ hmem hkey hne h
      · rw [if_neg hg] at h
        exact ih _ _ _ hmem hkey hne h

theorem union_containment {g : Nat → Option (List Nat)} {cg : Nat → Option Nat}
    {root n : Nat} (hin : InUnion g root n) :
    ∀ f u : Nat, union_all_childs g cg f root = some u → (cg n).getD 0 ||| u = u := by
  induction hin with
  | child hmem =>
    intro f u h
    match f with
    | 0 => cases h
    | f + 1 =>
      rw [union_all_childs] at h
      exact union_go_child _ _ _ _ hmem h
  | step hmem hkey hne _ ih =>
    intro f u h
    match f with
    | 0 => cases h
    | f + 1 =>
      rw [union_all_childs] at h
      obtain ⟨sub, hrec, hsubv⟩ := union_go_rec _ _ _ _ hmem hkey hne h
      exact lor_absorb (ih _ _ hrec) hsubv

theorem union_go_mono_rec {g : Nat → Option (List Nat)} {cg : Nat → Option Nat} {n : Nat}
    {rec rec2 : Nat → Option Nat} (hrec : ∀ a v, rec a = some v → rec2 a = some v) :
    ∀ (l : List Nat) (acc v : Nat),
      union_all_childs_go g cg rec n l acc = some v →
      union_all_childs_go g cg rec2 n l acc = some v := by
  intro l
  induction l with
  | nil =>
    intro acc v h
    exact h
  | cons ns rest ih =>
    intro acc v h
    rw [union_all_childs_go] at h ⊢
    by_cases hg : (g ns).isSome = true ∧ ns ≠ n
    · rw [if_pos hg] at h ⊢
      rcases hr : rec ns with _ | sub
      · rw [hr] at h
        cases h
      · rw [hr] at h
        rw [hrec ns sub hr]
        exact ih _ _ h
    · rw [if_neg hg] at h ⊢
      exact ih _ _ h

theorem union_fuel_succ {g : Nat → Option (List Nat)} {cg : Nat → Option Nat} :
    ∀ (f n v : Nat), union_all_childs g cg f n = some v →
      union_all_childs g cg (f + 1) n = some v := by
  intro f
  induction f with
  | zero =>
    intro n v h
    cases h
  | succ f ih =>
    intro n v h
    rw [union_all_childs] at h ⊢
    exact union_go_mono_rec (fun a w hw => ih a w hw) _ _ _ h

theorem union_fuel_mono {g : Nat → Option (List Nat)} {cg : Nat → Option Nat}
    {f f2 n v : Nat} (hf : f ≤ f2) (h : union_all_childs g cg f n = some v) :
    union_all_childs g cg f2 n = some v := by
  obtain ⟨k, rfl⟩ := Nat.exists_eq_add_of_le hf
  clear hf
  induction k with
  | zero => exact h
  | succ k ih =>
    rw [Nat.add_succ]
    exact union_fuel_succ _ _ _ ih

theorem union_go_fuel {g : Nat → Option (List Nat)} {cg : Nat → Option Nat} {n : Nat}
    (l : List Nat)
    (hch : ∀ c ∈ l, (g c).isSome = true → c ≠ n →
      ∃ f, (union_all_childs g cg f c).isSome = true) :
    ∃ F, ∀ acc, (union_all_childs_go g cg (union_all_childs g cg F) n l acc).isSome = true := by
  induction l with
  | nil =>
    refine ⟨0, fun acc => ?_⟩
    rw [union_all_childs_go]
    rfl
  | cons ns rest ih =>
    obtain ⟨Fr, hFr⟩ := ih (fun c hc => hch c (List.mem_cons_of_mem _ hc))
    by_cases hg : (g ns).isSome = true ∧ ns ≠ n
    · obtain ⟨fc, hfc⟩ := hch ns (List.mem_cons_self _ _) hg.1 hg.2
      obtain ⟨vc, hvc⟩ := Option.isSome_iff_exists.mp hfc
      refine ⟨max fc Fr, fun acc => ?_⟩
      rw [union_all_childs_go]
      rw [if_pos hg, union_fuel_mono (Nat.le_max_left _ _) hvc]
      show (union_all_childs_go g cg (union_all_childs g cg (max fc Fr)) n rest
        (acc ||| (cg ns).getD 0 ||| vc)).isSome = true
      obtain ⟨w, hw⟩ :=
        Option.isSome_iff_exists.mp (hFr (acc ||| (cg ns).getD 0 ||| vc))
      rw [union_go_mono_rec (fun a v hv => union_fuel_mono (Nat.le_max_right _ _) hv) _ _ _ hw]
      rfl
    · refine ⟨Fr, fun acc => ?_⟩
      rw [union_all_childs_go]
      rw [if_neg hg]
      exact hFr _

/-! ## Lemmas about quote stripping and escaping -/

theorem remove_outer_quotes_strip {s : List Char}
    (h : (2 ≤ s.length ∧ s.head? = some dquote ∧ s.getLast? = some dquote) ∨
         (2 ≤ s.length ∧ s.head? = some squote ∧ s.getLast? = some squote)) :
    remove_outer_quotes s = remove_outer_quotes ((s.drop 1).dropLast) := by
  rcases h with h | h
  · rw [remove_outer_quotes, if_pos h]
  · have hn : ¬(2 ≤ s.length ∧ s.head? = some dquote ∧ s.getLast? = some dquote) := by
      rintro ⟨-, hd, -⟩
      rw [h.2.1] at hd
      exact absurd (Option.some.inj hd) (by decide)
    rw [remove_outer_quotes, if_neg hn, if_pos h]

theorem remove_outer_quotes_id {s : List Char}
    (h : ¬((2 ≤ s.length ∧ s.head? = some dquote ∧ s.getLast? = some dquote) ∨
           (2 ≤ s.length ∧ s.head? = some squote ∧ s.getLast? = some squote))) :
    remove_outer_quotes s = s := by
  rw [remove_outer_quotes, if_neg (fun hc => h (Or.inl hc)), if_neg (fun hc => h (Or.inr hc))]

theorem escapeDquotes_count (s : List Char) :
    (escapeDquotes s).count dquote = s.count dquote ∧
    (escapeDquotes s).count backslash = s.count backslash + s.count dquote := by
  induction s with
  | nil => exact ⟨rfl, rfl⟩
  | cons c t ih =>
    have hbd : (backslash == dquote) = false := by decide
    have hdb : (dquote == backslash) = false := by decide
    simp only [escapeDquotes, List.flatMap_cons] at ih ⊢
    by_cases hc : c = dquote
    · subst hc
      constructor
      · simp [List.count_append, List.count_cons, ih.1, hbd]
      · simp [List.count_append, List.count_cons, ih.2, hbd, hdb]
        omega
    · constructor
      · simp [List.count_append, List.count_cons, ih.1, hc]
      · simp [List.count_append, List.count_cons, ih.2, hc]
        omega

theorem getopt_go_command {pc : String → Nat} :
    ∀ (l : List String) (args cli : Cli), getopt_go pc args l = Except.ok cli →
      ∀ s ∈ cli.command, s ∈ args.command ∨ ∃ raw, raw ∈ l ∧ s = escapeArg raw := by
  suffices H : ∀ (n : Nat) (l : List String), l.length = n → ∀ args cli,
      getopt_go pc args l = Except.ok cli →
      ∀ s ∈ cli.command, s ∈ args.command ∨ ∃ raw, raw ∈ l ∧ s = escapeArg raw by
    intro l
    exact H l.length l rfl
  intro n
  induction n using Nat.strong_induction_on with
  | _ n IH =>
    intro l hlen args cli h s hs
    match l, hlen with
    | [], hlen =>
      rw [getopt_go] at h
      cases h
      exact Or.inl hs
    | a :: rest, hlen =>
      rw [getopt_go.eq_def] at h
      dsimp only at h
      split_ifs at h with h1 h2 h3 h4 h5 h6
      · match rest, hlen with
        | [], hlen =>
          cases h
          exact Or.inl hs
        | b :: rest2, hlen =>
          rcases IH rest2.length (by simp at hlen; omega) rest2 rfl _ cli h s hs with hl | ⟨raw, hr, he⟩
          · exact Or.inl hl
          · exact Or.inr ⟨raw, by simp [hr], he⟩
      · rcases IH rest.length (by simp at hlen; omega) rest rfl _ cli h s hs with hl | ⟨raw, hr, he⟩
        · exact Or.inl hl
        · exact Or.inr ⟨raw, by simp [hr], he⟩
      · match rest, hlen with
        | [], hlen =>
          cases h
          exact Or.inl hs
        | b :: rest2, hlen =>
          rcases IH rest2.length (by simp at hlen; omega) rest2 rfl _ cli h s hs with hl | ⟨raw, hr, he⟩
          · exact Or.inl hl
          · exact Or.inr ⟨raw, by simp [hr], he⟩
      · match rest, hlen with
        | [], hlen =>
          cases h
          exact Or.inl hs
        | b :: rest2, hlen =>
          rcases IH rest2.length (by simp at hlen; omega) rest2 rfl _ cli h s hs with hl | ⟨raw, hr, he⟩
          · exact Or.inl hl
          · exact Or.inr ⟨raw, by simp [hr], he⟩
      · match rest, hlen with
        | [], hlen =>
          cases h
          exact Or.inl hs
        | b :: rest2, hlen =>
          rcases IH rest2.length (by simp at hlen; omega) rest2 rfl _ cli h s hs with hl | ⟨raw, hr, he⟩
          · exact Or.inl hl
          · exact Or.inr ⟨raw, by simp [hr], he⟩
      · obtain rfl := Except.ok.inj h
        rcases List.mem_append.mp hs with hl | hr
        · exact Or.inl hl
        · rcases List.mem_cons.mp hr with rfl | hmem
          · exact Or.inr ⟨a, List.mem_cons_self _ _, rfl⟩
          · obtain ⟨raw, hrmem, rfl⟩ := List.mem_map.mp hmem
            exact Or.inr ⟨raw, List.mem_cons_of_mem _ hrmem, rfl⟩

theorem aggregateStep_some_stack {stm : Nat → Option (List Nat)} {ks : Nat → Option String}
    {m : AggMap} {r : Request} {stack : List Nat}
    (hid : r.stackid ≤ 2 ^ 31 - 1) (hst : stm (asU32 r.stackid) = some stack) :
    aggregateStep stm ks m r =
      if suppress_request stack ks r.capability then
        Except.ok (m.upd (requestKey r) ((m (requestKey r)).getD 0))
      else
        match get_cap r.capability with
        | none => Except.error ("Unknown capability: " ++ toString r.capability)
        | some c =>
          Except.ok (m.upd (requestKey r) ((m (requestKey r)).getD 0 ||| 2 ^ c.index)) := by
  rw [aggregateStep, if_pos hid, hst]

theorem addedBits_eq {stm : Nat → Option (List Nat)} {ks : Nat → Option String}
    {r : Request} {stack : List Nat} (hst : stm (asU32 r.stackid) = some stack) :
    addedBits stm ks r =
      if suppress_request stack ks r.capability then 0 else 2 ^ r.capability := by
  rw [addedBits, hst]

theorem aggregate_cons_ok {stm : Nat → Option (List Nat)} {ks : Nat → Option String}
    {r : Request} {rs : List Request} {m m1 : AggMap}
    (h : aggregateStep stm ks m r = Except.ok m1) :
    aggregate_cap_set_entries stm ks (r :: rs) m = aggregate_cap_set_entries stm ks rs m1 := by
  rw [aggregate_cap_set_entries, h]

theorem aggregate_cons_err {stm : Nat → Option (List Nat)} {ks : Nat → Option String}
    {r : Request} {rs : List Request} {m : AggMap} {e : String}
    (h : aggregateStep stm ks m r = Except.error e) :
    aggregate_cap_set_entries stm ks (r :: rs) m = Except.error e := by
  rw [aggregate_cap_set_entries, h]

theorem escapeArg_echo : escapeArg "echo" = "echo" := by
  rw [escapeArg, escape_parser_string, remove_outer_quotes_id (by decide)]
  decide

/-! ## The claims -/

/-- C1: the claim states that the kernel probe attached to `cap_capable`
captures a stack-trace id, constructs a `Request` record and pushes it
onto the bounded kernel-to-user queue (dropping the new event when the
queue is full).  The probe in `capable-ebpf/src/main.rs:34-60` does
nothing of the sort: it captures no stack id and pushes no `Request`;
instead it OR-accumulates the capability bit into the per-pid hash map
`CAPABILITIES_MAP` and overwrites the per-pid entries of `UID_GID_MAP`,
`PPID_MAP` and `PNSID_NSID_MAP`, while the userspace consumer requires
the maps `ENTRY_STACK` and `STACKTRACE_MAP`, which the probe never
defines.  This theorem evaluates the probe at a concrete invocation and
records the map-name mismatch. -/
theorem c1_probe_updates_hashmaps_not_queue :
    ((try_capable task1 EbpfMaps.empty).capabilities_map 42 = some 1
      ∧ (try_capable task2 (try_capable task1 EbpfMaps.empty)).capabilities_map 42 = some 3
      ∧ (try_capable task1 EbpfMaps.empty).uid_gid_map 42 = some 1000
      ∧ (try_capable task1 EbpfMaps.empty).pnsid_nsid_map 42 =
          some ((4026531836 <<< 32) ||| 4026532100))
    ∧ ("ENTRY_STACK" ∈ userspaceRequiredMaps ∧ "STACKTRACE_MAP" ∈ userspaceRequiredMaps)
    ∧ ("ENTRY_STACK" ∉ ebpfDefinedMaps ∧ "STACKTRACE_MAP" ∉ ebpfDefinedMaps) := by
  refine ⟨⟨by decide, by decide, by decide, by decide⟩, ⟨by decide, by decide⟩,
    by decide, by decide⟩

/-- C2 (counterexample): with the empty namespace graph and
`caps = {1 ↦ bit 0}`, the code computes `union(1) = ∅` whereas the
claimed closure equation gives `caps[1] = {bit 0}`; in particular
`caps[root_ns] ⊆ union(root_ns)` fails at `n = root_ns`. -/
theorem c2_union_omits_root_caps_cex :
    union_all_childs gEmpty cgRoot 1 1 = some 0
    ∧ union_spec gEmpty cgRoot 1 1 = some 1
    ∧ cgRoot 1 = some 1
    ∧ ¬((1 : Nat) ||| 0 = 0) := by
  exact ⟨rfl, rfl, rfl, by decide⟩

/-- C2 (amended): `union_all_childs root` unions the capability sets of
the children listed under `root` in the graph, recursing into a child
only when the child is itself a graph key and differs from the current
node; `caps[root]` itself is included only when `root` appears as its own
child.  Consequently `caps[n] ⊆ union(root)` for every namespace `n` in
the subtree reached through child edges — not for `root` itself unless
the graph carries the self-loop. -/
theorem c2_union_children_containment (g : Nat → Option (List Nat)) (cg : Nat → Option Nat)
    (f root u : Nat) (h : union_all_childs g cg f root = some u) :
    (∀ n, InUnion g root n → (cg n).getD 0 ||| u = u)
    ∧ (root ∈ (g root).getD [] → (cg root).getD 0 ||| u = u) :=
  ⟨fun _ hn => union_containment hn f u h,
   fun hself => union_containment (InUnion.child hself) f u h⟩

/-- Witness for C2 (amended) at the graph `{1 ↦ [1, 2]}` with
`caps = {1 ↦ 5, 2 ↦ 2}`: the union from 1 is `7` and contains the child
capability sets. -/
theorem c2_union_children_containment_witness :
    union_all_childs g1 cg1 2 1 = some 7
    ∧ InUnion g1 1 2
    ∧ (cg1 2).getD 0 ||| 7 = 7
    ∧ (cg1 1).getD 0 ||| 7 = 7 := by
  have h : union_all_childs g1 cg1 2 1 = some 7 := rfl
  have h2 : InUnion g1 1 2 := InUnion.child (by decide)
  have h1 : InUnion g1 1 1 := InUnion.child (by decide)
  exact ⟨h, h2, (c2_union_children_containment g1 cg1 2 1 7 h).1 2 h2,
    (c2_union_children_containment g1 cg1 2 1 7 h).1 1 h1⟩

/-- C3 (counterexample): the policy JSON field `capabilities` is built by
`capset_to_vec`, which does not collapse the full set: at the full
41-bit set the emitted list has 41 `CAP_` entries and is not
`["ALL"]`. -/
theorem c3_full_set_not_collapsed_cex :
    programResultCapabilities fullCapSet ≠ ["ALL"]
    ∧ (programResultCapabilities fullCapSet).length = 41
    ∧ "ALL" ∉ programResultCapabilities fullCapSet := by
  exact ⟨by decide, by decide, by decide⟩

/-- C3 (amended): the emitted policy JSON capabilities list formats each
set bit as `CAP_<uppercase name>` and never contains `"ALL"`, even when
every bit 0..40 is set; the `ALL` collapse exists only in
`capset_to_string`, which feeds the textual table output, not the
JSON. -/
theorem c3_json_caps_formatting (set : Nat) :
    "ALL" ∉ programResultCapabilities set
    ∧ (∀ s ∈ programResultCapabilities set,
        ∃ i, i < 41 ∧ set.testBit i = true
          ∧ s = "CAP_" ++ ((get_cap i).map Cap.name).getD "")
    ∧ capset_to_string fullCapSet = "ALL" := by
  refine ⟨?_, ?_, by rw [capset_to_string, if_pos rfl]⟩
  · intro hmem
    rw [programResultCapabilities, capset_to_vec] at hmem
    obtain ⟨i, hi, heq⟩ := List.mem_map.mp hmem
    have hi41 : i < 41 := List.mem_range.mp (List.mem_filter.mp hi).1
    interval_cases i <;> exact absurd heq (by decide)
  · intro s hs
    rw [programResultCapabilities, capset_to_vec] at hs
    obtain ⟨i, hi, rfl⟩ := List.mem_map.mp hs
    obtain ⟨hir, hib⟩ := List.mem_filter.mp hi
    exact ⟨i, List.mem_range.mp hir, by simpa using hib, rfl⟩

/-- Witness for C3 (amended) at the set with bits 0 and 2: the list is
the two `CAP_` names and never `"ALL"`. -/
theorem c3_json_caps_formatting_witness :
    "ALL" ∉ programResultCapabilities 5
    ∧ capset_to_string fullCapSet = "ALL"
    ∧ programResultCapabilities 5 = ["CAP_CHOWN", "CAP_DAC_READ_SEARCH"] :=
  ⟨(c3_json_caps_formatting 5).1, (c3_json_caps_formatting 5).2.2, by decide⟩

/-- C4 (counterexample): a drained `Request` whose stackid has no live
entry in the stack-trace table is not a non-fatal skip: the
`stacktrace_map.get(..)?` at `capable/src/main.rs:396` propagates the
error, so the drain aborts and returns no set of entries. -/
theorem c4_missing_stack_entry_cex :
    aggregate_cap_set_entries stm0 ks0 [rLost] (fun _ => none) =
      Except.error "MapError: key not found in STACKTRACE_MAP"
    ∧ (aggregate_cap_set_entries stm0 ks0 [rLost] (fun _ => none)).isOk = false := by
  exact ⟨rfl, rfl⟩

/-- C4 (amended): when a popped `Request` (passing the stackid assert)
has no live entry in the stack-trace table, `aggregate_cap_set_entries`
aborts with the map-lookup error; the remaining `Request`s are not
aggregated and no entry set is returned. -/
theorem c4_missing_stack_entry_aborts (stm : Nat → Option (List Nat))
    (ks : Nat → Option String) (r : Request) (rs : List Request) (m0 : AggMap)
    (hid : r.stackid ≤ 2 ^ 31 - 1) (hmiss : stm (asU32 r.stackid) = none) :
    aggregate_cap_set_entries stm ks (r :: rs) m0 =
      Except.error "MapError: key not found in STACKTRACE_MAP" := by
  have hstep : aggregateStep stm ks m0 r =
      Except.error "MapError: key not found in STACKTRACE_MAP" := by
    rw [aggregateStep, if_pos hid, hmiss]
  rw [aggregate_cap_set_entries, hstep]

/-- Witness for C4 (amended) at the request `rLost` whose stackid 9 is
absent from `stm0`. -/
theorem c4_missing_stack_entry_aborts_witness :
    (rLost.stackid ≤ 2 ^ 31 - 1 ∧ stm0 (asU32 rLost.stackid) = none)
    ∧ aggregate_cap_set_entries stm0 ks0 [rLost] (fun _ => none) =
        Except.error "MapError: key not found in STACKTRACE_MAP" :=
  ⟨⟨by decide, by decide⟩,
   c4_missing_stack_entry_aborts stm0 ks0 rLost [] (fun _ => none) (by decide) (by decide)⟩

/-- C5: the claim states that `CapSetEntry` equality and hash both
ignore `gid` and cover the other five fields.  Equality does ignore
`gid` (`capable/src/main.rs:123-131`), but the `Hash` implementation
(`capable/src/main.rs:112-121`) feeds `gid` to the hasher: two entries
that differ only in `gid` compare equal yet hash different data, which
violates the consistency the `HashSet` requires of `Eq`/`Hash`. -/
theorem c5_hash_covers_gid_eq_ignores_it :
    CapSetEntry.beq entryGid0 entryGid1 = true
    ∧ entryGid0.hashData ≠ entryGid1.hashData := by
  exact ⟨by decide, by decide⟩

/-- C6: a popped `Request` whose stack frames resolve contributes its
capability bit to its entry's CapSet if and only if none of the four
stack-filter rules applies: SETUID with `cap_bprm_creds_from_file` on
the stack, DAC_OVERRIDE always, DAC_READ_SEARCH with `may_open` on the
stack, SYS_PTRACE always.  In particular a DAC_READ_SEARCH request with
`may_open` contributes no bit while the same request with any other
stack contributes it. -/
theorem c6_stack_filter_iff (stm : Nat → Option (List Nat)) (ks : Nat → Option String)
    (r : Request) (stack : List Nat)
    (hst : stm (asU32 r.stackid) = some stack)
    (hid : r.stackid ≤ 2 ^ 31 - 1)
    (hcap : r.capability ≤ 40) :
    ∃ m, aggregate_cap_set_entries stm ks [r] (fun _ => none) = Except.ok m
      ∧ (((m (requestKey r)).getD 0).testBit r.capability = true ↔
          ¬((r.capability = Cap.SETUID
              ∧ skip_priv_sym stack ks "cap_bprm_creds_from_file" = true)
            ∨ r.capability = Cap.DAC_OVERRIDE
            ∨ (r.capability = Cap.DAC_READ_SEARCH ∧ skip_priv_sym stack ks "may_open" = true)
            ∨ r.capability = Cap.SYS_PTRACE)) := by
  have hgood : GoodReq stm r := ⟨hid, by rw [hst]; rfl, hcap⟩
  refine ⟨stepMap stm ks r (fun _ => none), ?_, ?_⟩
  · rw [aggregate_cap_set_entries, aggregateStep_ok _ hgood]
    rfl
  · have hlk : stepMap stm ks r (fun _ => none) (requestKey r)
        = some (((none : Option Nat).getD 0) ||| addedBits stm ks r) :=
      AggMap.upd_lookup _ _ _
    rw [hlk]
    simp only [Option.getD_some, Option.getD_none, Nat.zero_or]
    rw [addedBits_eq hst]
    by_cases hsup : suppress_request stack ks r.capability
    · rw [if_pos hsup]
      exact iff_of_false (by simp [Nat.zero_testBit])
        (not_not_intro (suppress_request_iff.mp hsup))
    · rw [if_neg hsup]
      exact iff_of_true Nat.testBit_two_pow_self
        (fun hd => hsup (suppress_request_iff.mpr hd))

/-- Witness for C6 at the DAC_READ_SEARCH request `rDacRead`, whose
stack resolves to `may_open` under `ks0`: the bit is filtered out. -/
theorem c6_stack_filter_iff_witness :
    (stm0 (asU32 rDacRead.stackid) = some [12345]
      ∧ rDacRead.stackid ≤ 2 ^ 31 - 1 ∧ rDacRead.capability ≤ 40)
    ∧ ∃ m, aggregate_cap_set_entries stm0 ks0 [rDacRead] (fun _ => none) = Except.ok m
      ∧ (((m (requestKey rDacRead)).getD 0).testBit rDacRead.capability = true ↔
          ¬((rDacRead.capability = Cap.SETUID
              ∧ skip_priv_sym [12345] ks0 "cap_bprm_creds_from_file" = true)
            ∨ rDacRead.capability = Cap.DAC_OVERRIDE
            ∨ (rDacRead.capability = Cap.DAC_READ_SEARCH
              ∧ skip_priv_sym [12345] ks0 "may_open" = true)
            ∨ rDacRead.capability = Cap.SYS_PTRACE)) :=
  ⟨⟨by decide, by decide, by decide⟩,
   c6_stack_filter_iff stm0 ks0 rDacRead [12345] (by decide) (by decide) (by decide)⟩

/-- C7: aggregation is idempotent and order-insensitive: draining the
same `Request` twice in a row yields the same entry set as draining it
once (unconditionally), and any permutation of an error-free `Request`
stream yields the same entry map, hence the same per-ProcessKey CapSets
(CapSet union is bitwise OR). -/
theorem c7_aggregation_idem_and_perm (stm : Nat → Option (List Nat))
    (ks : Nat → Option String) (r : Request) (rs rs1 rs2 : List Request) (m0 : AggMap)
    (hgood : ∀ x ∈ rs1, GoodReq stm x) (hperm : rs1.Perm rs2) :
    aggregate_cap_set_entries stm ks (r :: r :: rs) m0 =
      aggregate_cap_set_entries stm ks (r :: rs) m0
    ∧ aggregate_cap_set_entries stm ks rs1 m0 = aggregate_cap_set_entries stm ks rs2 m0 := by
  constructor
  · rcases hstep : aggregateStep stm ks m0 r with e | m1
    · rw [aggregate_cons_err hstep, aggregate_cons_err hstep]
    · rw [aggregate_cons_ok hstep, aggregate_cons_ok (aggregateStep_idem hstep),
        aggregate_cons_ok hstep]
  · have hgood2 : ∀ x ∈ rs2, GoodReq stm x := fun x hx => hgood x (hperm.mem_iff.mpr hx)
    rw [aggregate_ok_of_good m0 hgood, aggregate_ok_of_good m0 hgood2]
    exact congrArg Except.ok
      (hperm.foldl_eq' (fun x _ y _ z => stepMap_comm stm ks x y z) m0)

/-- Witness for C7 on the stream `[rChown, rDacRead]` and its swap. -/
theorem c7_aggregation_idem_and_perm_witness :
    (∀ x ∈ [rChown, rDacRead], GoodReq stm0 x)
    ∧ List.Perm [rChown, rDacRead] [rDacRead, rChown]
    ∧ (aggregate_cap_set_entries stm0 ks0 [rChown, rChown, rDacRead] (fun _ => none) =
        aggregate_cap_set_entries stm0 ks0 [rChown, rDacRead] (fun _ => none)
      ∧ aggregate_cap_set_entries stm0 ks0 [rChown, rDacRead] (fun _ => none) =
        aggregate_cap_set_entries stm0 ks0 [rDacRead, rChown] (fun _ => none)) :=
  ⟨by decide, by decide,
   c7_aggregation_idem_and_perm stm0 ks0 rChown [rDacRead] [rChown, rDacRead]
     [rDacRead, rChown] (fun _ => none) (by decide) (by decide)⟩

/-- C8: a popped `Request` whose stackid resolves, whose capability
index exceeds 40 and which no stack-filter rule suppresses makes the
userspace drain abort with the fatal `Unknown capability` error instead
of continuing. -/
theorem c8_unknown_capability_fatal (stm : Nat → Option (List Nat))
    (ks : Nat → Option String) (r : Request) (stack : List Nat) (rs : List Request)
    (m0 : AggMap)
    (hst : stm (asU32 r.stackid) = some stack)
    (hid : r.stackid ≤ 2 ^ 31 - 1)
    (hcap : 40 < r.capability) :
    aggregate_cap_set_entries stm ks (r :: rs) m0 =
      Except.error ("Unknown capability: " ++ toString r.capability) := by
  have hsup : ¬suppress_request stack ks r.capability = true := by
    rw [suppress_request_gt_40 hcap]
    exact Bool.false_ne_true
  have hstep : aggregateStep stm ks m0 r =
      Except.error ("Unknown capability: " ++ toString r.capability) := by
    rw [aggregateStep_some_stack hid hst, if_neg hsup, get_cap_of_gt hcap]
  rw [aggregate_cap_set_entries, hstep]

/-- Witness for C8 at the request `rBig`, which carries the unknown
capability index 41. -/
theorem c8_unknown_capability_fatal_witness :
    (stm0 (asU32 rBig.stackid) = some [12345] ∧ rBig.stackid ≤ 2 ^ 31 - 1
      ∧ 40 < rBig.capability)
    ∧ aggregate_cap_set_entries stm0 ks0 [rBig] (fun _ => none) =
        Except.error ("Unknown capability: " ++ toString rBig.capability) :=
  ⟨⟨by decide, by decide, by decide⟩,
   c8_unknown_capability_fatal stm0 ks0 rBig [12345] [] (fun _ => none)
     (by decide) (by decide) (by decide)⟩

/-- C9: for every namespace graph whose strict child relation (child
listed in the graph, child a graph key, child distinct from its parent —
the guard at `capable/src/main.rs:222` skips a child equal to the
current node, so self-loops never recurse) admits no unbounded descent,
the recursive namespace-tree union terminates: from some fuel on the
computation returns a value. -/
theorem c9_union_recursion_terminates (g : Nat → Option (List Nat)) (cg : Nat → Option Nat)
    (hwf : WellFounded (fun b a => StrictEdge g a b)) :
    ∀ n, ∃ f, ∀ f2, f ≤ f2 → (union_all_childs g cg f2 n).isSome = true := by
  intro n
  refine @WellFounded.induction Nat (fun b a => StrictEdge g a b) hwf
    (fun n => ∃ f, ∀ f2, f ≤ f2 → (union_all_childs g cg f2 n).isSome = true) n
    (fun x ihx => ?_)
  have hch : ∀ c ∈ (g x).getD [], (g c).isSome = true → c ≠ x →
      ∃ f, (union_all_childs g cg f c).isSome = true := by
    intro c hc hkey hne
    obtain ⟨f, hf⟩ := ihx c ⟨hc, hkey, hne⟩
    exact ⟨f, hf f le_rfl⟩
  obtain ⟨F, hF⟩ := union_go_fuel _ hch
  refine ⟨F + 1, fun f2 hf2 => ?_⟩
  obtain ⟨k, rfl⟩ : ∃ k, f2 = k + 1 := ⟨f2 - 1, by omega⟩
  have hkF : F ≤ k := by omega
  rw [union_all_childs]
  obtain ⟨w, hw⟩ := Option.isSome_iff_exists.mp (hF 0)
  rw [union_go_mono_rec (fun a v hv => union_fuel_mono hkF hv) _ _ _ hw]
  rfl

/-- Witness for C9 at the pure self-loop graph `{1 ↦ [1]}`: its strict
child relation is empty (the guard excludes the self-loop), hence
well-founded, and the union from namespace 1 terminates. -/
theorem c9_union_recursion_terminates_witness :
    WellFounded (fun b a => StrictEdge gSelf a b)
    ∧ ∃ f, ∀ f2, f ≤ f2 → (union_all_childs gSelf cgSelf f2 1).isSome = true := by
  have hno : ∀ a b, ¬StrictEdge gSelf a b := by
    rintro a b ⟨h1, h2, h3⟩
    by_cases ha : a = 1
    · subst ha
      have hb : b = 1 := by
        have : b ∈ [1] := by simpa [gSelf] using h1
        simpa using this
      exact h3 hb
    · have : (gSelf a).getD [] = [] := by simp [gSelf, ha]
      rw [this] at h1
      exact absurd h1 (List.not_mem_nil b)
  have hwf : WellFounded (fun b a => StrictEdge gSelf a b) :=
    ⟨fun a => Acc.intro a (fun b hb => absurd hb (hno a b))⟩
  exact ⟨hwf, c9_union_recursion_terminates gSelf cgSelf hwf 1⟩

/-- C10: every argument collected into the command is
`escape_parser_string` of a raw argv element; `escape_parser_string`
first recursively strips a matching outermost pair of double or single
quotes while the string has length at least two and then backslash-escapes
every remaining double quote (preserving the number of double quotes and
adding one backslash per double quote); an argument of exactly two double
quotes becomes the empty string. -/
theorem c10_command_argument_escaping :
    (∀ s : List Char, escape_parser_string s = escapeDquotes (remove_outer_quotes s))
    ∧ (∀ s : List Char,
        ((2 ≤ s.length ∧ s.head? = some dquote ∧ s.getLast? = some dquote) ∨
         (2 ≤ s.length ∧ s.head? = some squote ∧ s.getLast? = some squote)) →
        remove_outer_quotes s = remove_outer_quotes ((s.drop 1).dropLast))
    ∧ (∀ s : List Char,
        ¬((2 ≤ s.length ∧ s.head? = some dquote ∧ s.getLast? = some dquote) ∨
          (2 ≤ s.length ∧ s.head? = some squote ∧ s.getLast? = some squote)) →
        remove_outer_quotes s = s)
    ∧ (∀ s : List Char, (escapeDquotes s).count dquote = s.count dquote ∧
        (escapeDquotes s).count backslash = s.count backslash + s.count dquote)
    ∧ escape_parser_string [dquote, dquote] = []
    ∧ (∀ (pc : String → Nat) (argv : List String) (cli : Cli) (s : String),
        getopt pc argv = Except.ok cli → s ∈ cli.command →
        ∃ raw, raw ∈ argv.drop 1 ∧ s = escapeArg raw) := by
  refine ⟨fun s => rfl, fun s h => remove_outer_quotes_strip h,
    fun s h => remove_outer_quotes_id h, escapeDquotes_count, ?_, ?_⟩
  · rw [escape_parser_string, remove_outer_quotes_strip (Or.inl (by decide))]
    rw [show (([dquote, dquote].drop 1).dropLast : List Char) = [] from rfl]
    rw [remove_outer_quotes_id (by decide)]
    rfl
  · intro pc argv cli s h hs
    rw [getopt] at h
    rcases getopt_go_command _ _ _ h s hs with hl | hex
    · exact absurd hl (List.not_mem_nil s)
    · exact hex

/-- Witness for C10: the quoted argument `"a"` is stripped once, and on
the argv `["capable", "-d", "echo"]` the collected command element
`"echo"` is the escape of the raw argument `echo`. -/
theorem c10_command_argument_escaping_witness :
    (2 ≤ sQ.length ∧ sQ.head? = some dquote ∧ sQ.getLast? = some dquote)
    ∧ remove_outer_quotes sQ = remove_outer_quotes ((sQ.drop 1).dropLast)
    ∧ getopt pc0 argv0 = Except.ok cli0
    ∧ "echo" ∈ cli0.command
    ∧ ∃ raw, raw ∈ argv0.drop 1 ∧ "echo" = escapeArg raw := by
  have hcond : 2 ≤ sQ.length ∧ sQ.head? = some dquote ∧ sQ.getLast? = some dquote := by
    decide
  have hget : getopt pc0 argv0 = Except.ok cli0 := by
    show getopt_go pc0 Cli.default ["-d", "echo"] = Except.ok cli0
    rw [getopt_go.eq_def]
    dsimp only
    rw [if_neg (by decide), if_pos (by decide)]
    rw [getopt_go.eq_def]
    dsimp only
    rw [if_neg (by decide), if_neg (by decide), if_neg (by decide), if_neg (by decide),
      if_neg (by decide), if_neg (by decide)]
    simp only [List.map_cons, List.map_nil, escapeArg_echo]
    rfl
  have hmem : "echo" ∈ cli0.command := by decide
  exact ⟨hcond, c10_command_argument_escaping.2.1 sQ (Or.inl hcond), hget, hmem,
    c10_command_argument_escaping.2.2.2.2.2 pc0 argv0 cli0 "echo" hget hmem⟩

end Capable
